import Mathlib

/-!
Verification development for `review_parser.py` (google_business_parser).

The script reads queries from the first column of every sheet of an `.xlsx`
workbook, submits each to a search engine through a browser session, extracts
a star score and a review count from the results page, and writes one `;`-
separated CSV row per input query.  We embed the decision logic shallowly:

* spreadsheet cells become an inductive `CellValue` plus Python truthiness;
* `parse_queries_from_xlsx_file` becomes a fold over sheets and rows;
* the per-query scrape (`parse_search_results`) becomes a pure function of a
  `PageBehavior` oracle describing what the browser would return;
* the main loop (cache, pacing, CSV writing) becomes a fold over the query
  list carrying an explicit `LoopState`.
-/

/-- A spreadsheet cell value as seen by openpyxl: `None`, a string, a number
or a boolean.  Numeric cells are modelled by integers; only their Python
truthiness matters to the extractor. -/
inductive CellValue where
  | vNone : CellValue
  | vStr (s : String) : CellValue
  | vInt (n : Int) : CellValue
  | vBool (b : Bool) : CellValue
deriving DecidableEq, Repr

/-- Python truthiness of a cell value: `None`, `""`, `0` and `False` are
falsy, everything else is truthy.  This is the test `row[0].value` performs
in `if row and row[0] is not None and row[0].value:`. -/
def CellValue.truthy : CellValue → Bool
  | .vNone => false
  | .vStr s => s ≠ ""
  | .vInt n => n ≠ 0
  | .vBool b => b

/-- A row as yielded by `sheet.iter_rows()`: a list of cells, where `none`
models a cell object that is itself `None`. -/
abbrev XlsxRow := List (Option CellValue)

abbrev Sheet := List XlsxRow

abbrev Workbook := List Sheet

/-- One iteration of the row loop in `parse_queries_from_xlsx_file`:
`if row and row[0] is not None and row[0].value: queries.append(row[0].value)`.
An empty row is falsy, a `None` first cell is skipped, and the first cell's
value is appended exactly when it is truthy. -/
def appendRow (queries : List CellValue) (row : XlsxRow) : List CellValue :=
  match row with
  | (some v) :: _ => if v.truthy then queries ++ [v] else queries
  | _ => queries

/-- The nested sheet/row loop of `parse_queries_from_xlsx_file`, before the
header check: every sheet in workbook order, every row top to bottom,
accumulating into one list. -/
def collectAll (wb : Workbook) : List CellValue :=
  wb.foldl (fun acc sheet => sheet.foldl appendRow acc) []

/-- The header removal `if queries and queries[0] == 'Agent Name':
queries = queries[1:]`.  Python `==` between the string literal and a
non-string value is `False`, which the `CellValue` equality mirrors. -/
def stripHeader (queries : List CellValue) : List CellValue :=
  match queries with
  | [] => []
  | q :: rest => if q = CellValue.vStr "Agent Name" then rest else q :: rest

/-- `parse_queries_from_xlsx_file`: collect the truthy first-column values of
every sheet, then drop a leading `"Agent Name"` header if present. -/
def parse_queries_from_xlsx_file (wb : Workbook) : List CellValue :=
  stripHeader (collectAll wb)

/-- `MAX_QUERIES = 100`. -/
def MAX_QUERIES : Nat := 100

/-- The truncation in `main`: `queries = queries[:MAX_QUERIES]`. -/
def mainQueries (wb : Workbook) : List CellValue :=
  (parse_queries_from_xlsx_file wb).take MAX_QUERIES

/-- Whether a row's first cell passes the extractor's test (the row is
non-empty, its first cell is not `None`, and the cell's value is truthy). -/
def rowAccepted (row : XlsxRow) : Bool :=
  match row with
  | (some v) :: _ => v.truthy
  | _ => false

/-- The value a row contributes to the query list, if any. -/
def rowValue (row : XlsxRow) : Option CellValue :=
  match row with
  | (some v) :: _ => if v.truthy then some v else none
  | _ => none

/-- Total number of first-column cells across all sheets that pass the
extractor's non-emptiness test. -/
def totalNonEmpty (wb : Workbook) : Nat :=
  (wb.map (fun sheet => sheet.countP rowAccepted)).sum

/-- Whether the very first collected value is exactly the header label. -/
def hasHeader (queries : List CellValue) : Bool :=
  match queries with
  | [] => false
  | q :: _ => decide (q = CellValue.vStr "Agent Name")

/-- The spec's wording of the row filter — "non-empty (not null, not empty
string)" — stated as a predicate on the first cell, for comparison with the
code's truthiness test. -/
def specNonEmpty (cell : Option CellValue) : Bool :=
  match cell with
  | none => false
  | some .vNone => false
  | some (.vStr s) => s ≠ ""
  | some _ => true

theorem appendRow_eq (acc : List CellValue) (row : XlsxRow) :
    appendRow acc row = acc ++ (rowValue row).toList := by
  match row with
  | [] => simp [appendRow, rowValue]
  | none :: _ => simp [appendRow, rowValue]
  | (some v) :: _ =>
    by_cases h : v.truthy
    · simp [appendRow, rowValue, h]
    · simp [appendRow, rowValue, h]

theorem foldl_appendRow_eq (sheet : Sheet) (acc : List CellValue) :
    sheet.foldl appendRow acc = acc ++ sheet.filterMap rowValue := by
  induction sheet generalizing acc with
  | nil => simp
  | cons row rows ih =>
    simp only [List.foldl_cons, ih, appendRow_eq]
    cases h : rowValue row <;> simp [List.filterMap_cons, h]

theorem collectAll_eq (wb : Workbook) :
    collectAll wb = (wb.map (fun sheet => sheet.filterMap rowValue)).flatten := by
  unfold collectAll
  suffices h : ∀ acc : List CellValue,
      wb.foldl (fun acc sheet => sheet.foldl appendRow acc) acc =
        acc ++ (wb.map (fun sheet => sheet.filterMap rowValue)).flatten by
    simpa using h []
  induction wb with
  | nil => intro acc; simp
  | cons s ss ih =>
    intro acc
    rw [List.foldl_cons, foldl_appendRow_eq, ih]
    simp [List.append_assoc]

theorem rowValue_isSome (row : XlsxRow) :
    (rowValue row).isSome = rowAccepted row := by
  match row with
  | [] => rfl
  | none :: _ => rfl
  | (some v) :: _ =>
    by_cases h : v.truthy <;> simp [rowValue, rowAccepted, h]

theorem filterMap_rowValue_length (sheet : Sheet) :
    (sheet.filterMap rowValue).length = sheet.countP rowAccepted := by
  induction sheet with
  | nil => rfl
  | cons row rows ih =>
    rw [List.filterMap_cons, List.countP_cons]
    have h := rowValue_isSome row
    cases hv : rowValue row with
    | none =>
      rw [hv] at h
      simp [← h, ih]
    | some v =>
      rw [hv] at h
      simp [← h, ih]

theorem collectAll_length (wb : Workbook) :
    (collectAll wb).length = totalNonEmpty wb := by
  rw [collectAll_eq]
  unfold totalNonEmpty
  induction wb with
  | nil => rfl
  | cons s ss ih =>
    simp only [List.map_cons, List.flatten_cons, List.length_append, ih,
      List.sum_cons, filterMap_rowValue_length]

theorem stripHeader_length (qs : List CellValue) :
    (stripHeader qs).length = qs.length - (if hasHeader qs then 1 else 0) := by
  match qs with
  | [] => rfl
  | q :: rest =>
    by_cases h : q = CellValue.vStr "Agent Name"
    · simp [stripHeader, hasHeader, h]
    · simp [stripHeader, hasHeader, h]

/-! ## The per-query scrape -/

/-- Text transform of `parse_star_score`: `el.text.replace(',', '.')`, which
in Python replaces every occurrence of `,` by `.`. -/
def replaceCommaChars : List Char → List Char
  | [] => []
  | c :: cs => (if c = ',' then '.' else c) :: replaceCommaChars cs

/-- `parse_star_score` applied to the located element's text. -/
def parse_star_score (text : String) : String :=
  ⟨replaceCommaChars text.data⟩

/-- Text transform of `parse_number_of_reviews`: `el.text.split(' ')[0]`,
i.e. the prefix of the text up to (excluding) the first space character. -/
def takeUntilSpace : List Char → List Char
  | [] => []
  | c :: cs => if c = ' ' then [] else c :: takeUntilSpace cs

/-- `parse_number_of_reviews` applied to the located element's text. -/
def parse_number_of_reviews (text : String) : String :=
  ⟨takeUntilSpace text.data⟩

/-- Outcome of the submission block: `search_query_on_google` plus the
`driver.current_url` read either complete, yielding the current URL, or some
exception is raised. -/
inductive SubmitOutcome where
  | ok (url : String) : SubmitOutcome
  | err : SubmitOutcome
deriving DecidableEq, Repr

/-- Outcome of one `driver.find_element(...).text` read: the element is
found with the given displayed text, or a `NoSuchElementException` is
raised, or some other exception is raised. -/
inductive ElemOutcome where
  | found (text : String) : ElemOutcome
  | noSuchElement : ElemOutcome
  | otherError : ElemOutcome
deriving DecidableEq, Repr

/-- What the browser would do for one fresh query submission: the result of
the submission/navigation block, then of the star-score element lookup, then
of the review-count element lookup. -/
structure PageBehavior where
  submit : SubmitOutcome
  star : ElemOutcome
  reviews : ElemOutcome
deriving DecidableEq, Repr

/-- The record built by `parse_search_results`, a dict with the `query` key
always present and the other keys optional. -/
structure SearchResults where
  query : String
  url : Option String
  star_score : Option String
  reviews_count : Option String
deriving DecidableEq, Repr

/-- `parse_search_results`: on submission failure only the query is kept; on
success the URL is recorded, then `star_score` is assigned and afterwards
`reviews_count`.  Both `NoSuchElementException` and any other exception in
the second `try` are absorbed, so a failure while locating the review-count
element leaves an already-assigned `star_score` in place. -/
def parse_search_results (b : PageBehavior) (query : String) : SearchResults :=
  match b.submit with
  | .err => ⟨query, none, none, none⟩
  | .ok url =>
    match b.star with
    | .found starText =>
      match b.reviews with
      | .found reviewsText =>
        ⟨query, some url, some (parse_star_score starText),
          some (parse_number_of_reviews reviewsText)⟩
      | _ => ⟨query, some url, some (parse_star_score starText), none⟩
    | _ => ⟨query, some url, none, none⟩

/-! ## CSV rendering

`csv.DictWriter(outfile, fieldnames=['query','star_score','reviews_count','url'],
dialect='excel', delimiter=';')` with the default `restval=''`: a missing key
is rendered as the empty string, and a field is quoted (with `"` doubled)
only when it contains the delimiter, the quote character or a line break. -/

def fieldnames : List String := ["query", "star_score", "reviews_count", "url"]

/-- The row dict in field order, with missing values replaced by `restval`
(the empty string). -/
def renderRow (r : SearchResults) : List String :=
  [r.query, r.star_score.getD "", r.reviews_count.getD "", r.url.getD ""]

/-- Whether the excel dialect must quote a field. -/
def needsQuote (s : String) : Bool :=
  s.data.any (fun c => c = ';' || c = '"' || c = '\n' || c = '\r')

/-- Double every quote character, for quoted fields. -/
def doubleQuotes : List Char → List Char
  | [] => []
  | c :: cs => if c = '"' then '"' :: '"' :: doubleQuotes cs else c :: doubleQuotes cs

/-- Minimal quoting of one CSV field. -/
def csvQuote (s : String) : String :=
  if needsQuote s then "\"" ++ (⟨doubleQuotes s.data⟩ : String) ++ "\"" else s

/-- One written CSV line (without the line terminator). -/
def renderLine (r : SearchResults) : String :=
  String.intercalate ";" ((renderRow r).map csvQuote)

/-- The header line written by `writer.writeheader()`. -/
def headerLine : String :=
  String.intercalate ";" (fieldnames.map csvQuote)

/-! ## The main loop -/

/-- State of the query loop in `main`: the `seen_search_results` dict
(modelled as an insertion-ordered association list), the rows written so
far, the number of fresh browser interactions (submissions attempted), and
the number of inter-query pacing delays (`time.sleep(random.uniform(3, 5))`)
performed. -/
structure LoopState where
  seen : List (String × SearchResults)
  rows : List SearchResults
  interactions : Nat
  delays : Nat
deriving DecidableEq, Repr

/-- Lookup in the `seen_search_results` dict by exact query text. -/
def findSeen (q : String) : List (String × SearchResults) → Option SearchResults
  | [] => none
  | (k, r) :: rest => if k = q then some r else findSeen q rest

def initState : LoopState := ⟨[], [], 0, 0⟩

/-- One iteration of `for query in queries`: on a cache hit the cached
record is reused with no pacing delay and no browser interaction; otherwise
the loop sleeps, scrapes the page (whose behavior is indexed by the number
of fresh interactions so far, so repeat navigations may differ), caches the
record and writes it.

This String-level loop specializes the program to string-valued queries (the
dict key is then the query text).  `seen_search_results` in the program is
keyed by the raw cell value, which only differs for non-string cells; the
value-keyed loop `stepV`/`runQueriesV` below models that faithfully, and the
properties settled on this loop do not depend on the key identity. -/
def step (b : Nat → PageBehavior) (st : LoopState) (query : String) : LoopState :=
  match findSeen query st.seen with
  | some r => { st with rows := st.rows ++ [r] }
  | none =>
    let r := parse_search_results (b st.interactions) query
    { seen := st.seen ++ [(query, r)]
      rows := st.rows ++ [r]
      interactions := st.interactions + 1
      delays := st.delays + 1 }

/-- The whole query loop of `main`, from an empty cache. -/
def runQueries (b : Nat → PageBehavior) (queries : List String) : LoopState :=
  queries.foldl (step b) initState

/-- Python `str()` of a cell value, used when a query value reaches the
search field and the CSV writer. -/
def pyStr : CellValue → String
  | .vNone => "None"
  | .vStr s => s
  | .vInt n => toString n
  | .vBool b => if b then "True" else "False"

/-- The lines of the output file: the header row followed by one rendered
row per processed query. -/
def outputLines (b : Nat → PageBehavior) (queries : List String) : List String :=
  headerLine :: (runQueries b queries).rows.map renderLine

/-- The run after a successful setup (driver created, workbook parsed,
output file opened): extract and truncate the queries, run the loop, and
exit with status 0 — every per-query exception is absorbed inside
`parse_search_results`, so the `with` block always completes.  Returns the
exit status and the output file's lines. -/
def mainRun (b : Nat → PageBehavior) (wb : Workbook) : Nat × List String :=
  (0, outputLines b ((mainQueries wb).map pyStr))

/-! ## Loop lemmas -/

/-- Invariant of the loop state: every cached record stores the query text it
is keyed by, the cache keys are pairwise distinct, and the interaction and
delay counters equal the number of cache entries. -/
def LoopInv (st : LoopState) : Prop :=
  (∀ p ∈ st.seen, (Prod.snd p).query = Prod.fst p) ∧
    (st.seen.map Prod.fst).Nodup ∧
    st.interactions = st.seen.length ∧
    st.delays = st.seen.length

theorem findSeen_append_left {q : String} {l : List (String × SearchResults)}
    {r : SearchResults} (l2 : List (String × SearchResults))
    (h : findSeen q l = some r) : findSeen q (l ++ l2) = some r := by
  induction l with
  | nil => simp [findSeen] at h
  | cons p rest ih =>
    obtain ⟨k, v⟩ := p
    by_cases hk : k = q
    · simp [findSeen, hk] at h ⊢
      exact h
    · simp [findSeen, hk] at h ⊢
      exact ih h

theorem findSeen_append_self {q : String} {l : List (String × SearchResults)}
    (r : SearchResults) (h : findSeen q l = none) :
    findSeen q (l ++ [(q, r)]) = some r := by
  induction l with
  | nil => simp [findSeen]
  | cons p rest ih =>
    obtain ⟨k, v⟩ := p
    by_cases hk : k = q
    · simp [findSeen, hk] at h
    · simp [findSeen, hk] at h ⊢
      exact ih h

theorem findSeen_none_not_mem {q : String} {l : List (String × SearchResults)}
    (h : findSeen q l = none) : q ∉ l.map Prod.fst := by
  induction l with
  | nil => simp
  | cons p rest ih =>
    obtain ⟨k, v⟩ := p
    by_cases hk : k = q
    · simp [findSeen, hk] at h
    · simp [findSeen, hk] at h
      simp [ih h]
      exact fun hq => hk hq.symm

theorem findSeen_mem {q : String} {l : List (String × SearchResults)}
    {r : SearchResults} (h : findSeen q l = some r) : (q, r) ∈ l := by
  induction l with
  | nil => simp [findSeen] at h
  | cons p rest ih =>
    obtain ⟨k, v⟩ := p
    by_cases hk : k = q
    · simp [findSeen, hk] at h
      simp [hk, h]
    · simp [findSeen, hk] at h
      simp [ih h]

/-- The fallback record used to express "the row for query `q`"; it is never
reached when `q` has a cache entry. -/
def defaultRow (q : String) : SearchResults := ⟨q, none, none, none⟩

theorem parse_search_results_query (b : PageBehavior) (q : String) :
    (parse_search_results b q).query = q := by
  unfold parse_search_results
  cases b.submit with
  | err => rfl
  | ok url =>
    cases b.star with
    | found t =>
      cases b.reviews with
      | found u => rfl
      | noSuchElement => rfl
      | otherError => rfl
    | noSuchElement => rfl
    | otherError => rfl

/-- The row the finished loop holds for a query, read off the final cache. -/
def finalRowOf (fin : LoopState) (q : String) : SearchResults :=
  (findSeen q fin.seen).getD (defaultRow q)

/-- Master lemma: running the loop from any state satisfying the invariant
appends exactly one row per query, each row being the final cache's record
for its query; the invariant is preserved, the set of cache keys grows by
exactly the processed queries, and existing cache entries are unchanged. -/
theorem foldl_step_spec (b : Nat → PageBehavior) (qs : List String)
    (st : LoopState) (hInv : LoopInv st) :
    LoopInv (qs.foldl (step b) st) ∧
      (∀ q r, findSeen q st.seen = some r →
        findSeen q (qs.foldl (step b) st).seen = some r) ∧
      ((qs.foldl (step b) st).seen.map Prod.fst).toFinset =
        (st.seen.map Prod.fst).toFinset ∪ qs.toFinset ∧
      (qs.foldl (step b) st).rows =
        st.rows ++ qs.map (finalRowOf (qs.foldl (step b) st)) := by
  induction qs generalizing st with
  | nil => simpa using hInv
  | cons q rest ih =>
    rw [List.foldl_cons]
    cases hfind : findSeen q st.seen with
    | some r =>
      have hstep : step b st q = { st with rows := st.rows ++ [r] } := by
        simp [step, hfind]
      have hInv1 : LoopInv { st with rows := st.rows ++ [r] } := by
        obtain ⟨h1, h2, h3, h4⟩ := hInv
        exact ⟨h1, h2, h3, h4⟩
      rw [hstep]
      obtain ⟨hI, hMono, hKeys, hRows⟩ := ih _ hInv1
      refine ⟨hI, ?_, ?_, ?_⟩
      · intro q0 r0 h0
        exact hMono q0 r0 h0
      · rw [hKeys]
        have hq : q ∈ (st.seen.map Prod.fst) := by
          have := findSeen_mem hfind
          exact List.mem_map_of_mem Prod.fst this
        rw [List.toFinset_cons]
        have : q ∈ (st.seen.map Prod.fst).toFinset := List.mem_toFinset.mpr hq
        rw [Finset.union_insert]
        rw [Finset.insert_eq_self.mpr (Finset.mem_union_left _ this)]
      · rw [hRows]
        have hfin : findSeen q (rest.foldl (step b) { st with rows := st.rows ++ [r] }).seen = some r :=
          hMono q r hfind
        simp only [List.map_cons, finalRowOf, hfin, Option.getD_some]
        simp [List.append_assoc]
    | none =>
      set r := parse_search_results (b st.interactions) q with hr
      have hstep : step b st q =
          ⟨st.seen ++ [(q, r)], st.rows ++ [r], st.interactions + 1, st.delays + 1⟩ := by
        simp [step, hfind]
      have hInv1 : LoopInv ⟨st.seen ++ [(q, r)], st.rows ++ [r],
          st.interactions + 1, st.delays + 1⟩ := by
        obtain ⟨h1, h2, h3, h4⟩ := hInv
        refine ⟨?_, ?_, ?_, ?_⟩
        · intro p hp
          rcases List.mem_append.mp hp with hp1 | hp2
          · exact h1 p hp1
          · simp at hp2
            rw [hp2]
            exact parse_search_results_query _ _
        · rw [List.map_append]
          simp only [List.map_cons, List.map_nil]
          rw [List.nodup_append]
          refine ⟨h2, List.nodup_singleton q, ?_⟩
          intro a ha hb
          simp at hb
          subst hb
          exact findSeen_none_not_mem hfind ha
        · simp [h3]
        · simp [h4]
      rw [hstep]
      obtain ⟨hI, hMono, hKeys, hRows⟩ := ih _ hInv1
      refine ⟨hI, ?_, ?_, ?_⟩
      · intro q0 r0 h0
        exact hMono q0 r0 (findSeen_append_left _ h0)
      · rw [hKeys]
        simp only [List.map_append, List.toFinset_append, List.map_cons,
          List.map_nil, List.toFinset_cons, List.toFinset_nil,
          insert_emptyc_eq]
        ext a
        simp
        tauto
      · rw [hRows]
        have hself : findSeen q (st.seen ++ [(q, r)]) = some r :=
          findSeen_append_self r hfind
        have hfin : findSeen q (rest.foldl (step b)
            ⟨st.seen ++ [(q, r)], st.rows ++ [r], st.interactions + 1, st.delays + 1⟩).seen = some r :=
          hMono q r hself
        simp only [List.map_cons, finalRowOf, hfin, Option.getD_some]
        simp [List.append_assoc]

theorem initState_inv : LoopInv initState := by
  refine ⟨?_, ?_, rfl, rfl⟩
  · intro p hp
    simp [initState] at hp
  · simp [initState]

theorem runQueries_inv (b : Nat → PageBehavior) (qs : List String) :
    LoopInv (runQueries b qs) :=
  (foldl_step_spec b qs initState initState_inv).1

theorem runQueries_rows (b : Nat → PageBehavior) (qs : List String) :
    (runQueries b qs).rows = qs.map (finalRowOf (runQueries b qs)) := by
  have h := (foldl_step_spec b qs initState initState_inv).2.2.2
  simpa [initState, runQueries] using h

theorem runQueries_keys (b : Nat → PageBehavior) (qs : List String) :
    ((runQueries b qs).seen.map Prod.fst).toFinset = qs.toFinset := by
  have h := (foldl_step_spec b qs initState initState_inv).2.2.1
  simpa [initState, runQueries] using h

theorem finalRowOf_query (fin : LoopState) (hInv : LoopInv fin) (q : String) :
    (finalRowOf fin q).query = q := by
  unfold finalRowOf
  cases h : findSeen q fin.seen with
  | none => rfl
  | some r =>
    have hm := findSeen_mem h
    exact hInv.1 (q, r) hm

theorem runQueries_interactions (b : Nat → PageBehavior) (qs : List String) :
    (runQueries b qs).interactions = qs.toFinset.card := by
  obtain ⟨h1, h2, h3, h4⟩ := runQueries_inv b qs
  rw [h3]
  have hlen : (runQueries b qs).seen.length =
      ((runQueries b qs).seen.map Prod.fst).length := by
    rw [List.length_map]
  rw [hlen, ← List.toFinset_card_of_nodup h2, runQueries_keys]

theorem runQueries_delays (b : Nat → PageBehavior) (qs : List String) :
    (runQueries b qs).delays = qs.toFinset.card := by
  obtain ⟨h1, h2, h3, h4⟩ := runQueries_inv b qs
  rw [h4]
  have hlen : (runQueries b qs).seen.length =
      ((runQueries b qs).seen.map Prod.fst).length := by
    rw [List.length_map]
  rw [hlen, ← List.toFinset_card_of_nodup h2, runQueries_keys]

/-! ## Auxiliary text lemmas -/

theorem replaceCommaChars_eq_map (l : List Char) :
    replaceCommaChars l = l.map (fun c => if c = ',' then '.' else c) := by
  induction l with
  | nil => rfl
  | cons c cs ih => simp [replaceCommaChars, ih]

theorem takeUntilSpace_eq_takeWhile (l : List Char) :
    takeUntilSpace l = l.takeWhile (fun c => c ≠ ' ') := by
  induction l with
  | nil => rfl
  | cons c cs ih =>
    by_cases h : c = ' ' <;> simp [takeUntilSpace, List.takeWhile_cons, h, ih]

theorem collectAll_flatten (wb : Workbook) :
    collectAll wb = wb.flatten.filterMap rowValue := by
  rw [collectAll_eq, List.filterMap_flatten]

/-! ## Concrete inputs used by counterexamples and witnesses -/

/-- A workbook with one sheet: an `"Agent Name"` header row followed by 100
rows whose first cell is the string `"Q"` (101 non-empty first-column cells
in total). -/
def wbHeader101 : Workbook :=
  [( [some (CellValue.vStr "Agent Name")] ) :: List.replicate 100 [some (CellValue.vStr "Q")]]

/-- A workbook whose only non-empty-looking cell is the integer `0`. -/
def wbZero : Workbook := [[[some (CellValue.vInt 0)]]]

/-- A workbook whose only non-empty first-column cell is the header label. -/
def wbHeaderOnly : Workbook := [[[some (CellValue.vStr "Agent Name")]]]

/-- A page behavior where the submission block fails on every interaction. -/
def behErr : Nat → PageBehavior :=
  fun _ => ⟨SubmitOutcome.err, ElemOutcome.noSuchElement, ElemOutcome.noSuchElement⟩

/-- A page where submission succeeds, the star-score element is found with
text `"4,5"`, but the review-count element is absent. -/
def pageStarOnly : PageBehavior :=
  ⟨SubmitOutcome.ok "http://results", ElemOutcome.found "4,5", ElemOutcome.noSuchElement⟩

/-! ## Claims -/

set_option maxRecDepth 40000 in
/-- C1 (counterexample): with 101 non-empty first-column cells whose first is
`"Agent Name"`, the retained query count is 100, while the claimed formula
`min(100, 101) - 1` gives 99 — the header is removed before truncation, not
after. -/
theorem c1_truncation_counterexample :
    hasHeader (collectAll wbHeader101) = true ∧
      totalNonEmpty wbHeader101 = 101 ∧
      (mainQueries wbHeader101).length = 100 ∧
      min MAX_QUERIES (totalNonEmpty wbHeader101) - 1 = 99 := by
  refine ⟨by decide, by decide, by decide, by decide⟩

/-- C1 (amended): the retained query count never exceeds `MAX_QUERIES` and
equals `min(100, N - h)` where `N` counts the non-empty (truthy) first-column
cells across all sheets and `h` is 1 exactly when the very first collected
value is `"Agent Name"` — the header is dropped before the truncation. -/
theorem c1_retained_count (wb : Workbook) :
    (mainQueries wb).length ≤ MAX_QUERIES ∧
      (mainQueries wb).length =
        min MAX_QUERIES
          (totalNonEmpty wb - (if hasHeader (collectAll wb) then 1 else 0)) := by
  constructor
  · unfold mainQueries
    rw [List.length_take]
    exact min_le_left _ _
  · unfold mainQueries parse_queries_from_xlsx_file
    rw [List.length_take, stripHeader_length, collectAll_length]

/-- C2 (counterexample): when submission succeeds, the star-score element is
found with text `"4,5"` and the review-count element is absent, the record
keeps `star_score = "4.5"` while `reviews_count` is absent — the two fields
are not both absent, contrary to the claim. -/
theorem c2_partial_fields_counterexample :
    (parse_search_results pageStarOnly "q").star_score = some "4.5" ∧
      (parse_search_results pageStarOnly "q").reviews_count = none := by
  refine ⟨by decide, by decide⟩

/-- C2 (amended): after a successful submission, `star_score` is set iff the
star-score element is found, and `reviews_count` is set iff both elements
are found (the star element first, so its failure also suppresses
`reviews_count`, while a review-count failure leaves `star_score` set); no
error is raised in any of these cases, the scrape being a total function. -/
theorem c2_fields_presence (b : PageBehavior) (q u : String)
    (h : b.submit = SubmitOutcome.ok u) :
    ((parse_search_results b q).star_score.isSome = true ↔
        ∃ t, b.star = ElemOutcome.found t) ∧
      ((parse_search_results b q).reviews_count.isSome = true ↔
        (∃ t, b.star = ElemOutcome.found t) ∧
          ∃ s, b.reviews = ElemOutcome.found s) := by
  unfold parse_search_results
  rw [h]
  cases hs : b.star <;> cases hr : b.reviews <;> simp

theorem c2_fields_presence_witness :
    pageStarOnly.submit = SubmitOutcome.ok "http://results" ∧
      (((parse_search_results pageStarOnly "q").star_score.isSome = true ↔
          ∃ t, pageStarOnly.star = ElemOutcome.found t) ∧
        ((parse_search_results pageStarOnly "q").reviews_count.isSome = true ↔
          (∃ t, pageStarOnly.star = ElemOutcome.found t) ∧
            ∃ s, pageStarOnly.reviews = ElemOutcome.found s)) :=
  ⟨rfl, c2_fields_presence pageStarOnly "q" "http://results" rfl⟩

/-- C3: the finished loop has written exactly one row per input query,
duplicates included, and the rows are in input order — the i-th row's query
is the i-th input query. -/
theorem c3_rows_inorder (b : Nat → PageBehavior) (qs : List String) :
    (runQueries b qs).rows.length = qs.length ∧
      (runQueries b qs).rows.map SearchResults.query = qs := by
  have hrows := runQueries_rows b qs
  constructor
  · rw [hrows, List.length_map]
  · rw [hrows, List.map_map]
    have hq : SearchResults.query ∘ finalRowOf (runQueries b qs) = id :=
      funext (fun q => finalRowOf_query _ (runQueries_inv b qs) q)
    rw [hq, List.map_id]

/-- C5: when the first fresh submission raises, the written row for that
query keeps only the query text — rendered `Q;;;` as the four fields
`[Q, "", "", ""]` — and the loop still processes every remaining query. -/
theorem c5_submission_failure_row (b : Nat → PageBehavior) (q : String)
    (rest : List String) (h : (b 0).submit = SubmitOutcome.err) :
    (runQueries b (q :: rest)).rows.head? = some (defaultRow q) ∧
      renderRow (defaultRow q) = [q, "", "", ""] ∧
      (runQueries b (q :: rest)).rows.length = (q :: rest).length ∧
      (∀ (bp : PageBehavior) (q2 : String), bp.submit = SubmitOutcome.err →
        parse_search_results bp q2 = defaultRow q2) := by
  have hgen : ∀ (bp : PageBehavior) (q2 : String), bp.submit = SubmitOutcome.err →
      parse_search_results bp q2 = defaultRow q2 := by
    intro bp q2 h2
    unfold parse_search_results defaultRow
    rw [h2]
  have hq : parse_search_results (b 0) q = defaultRow q := hgen (b 0) q h
  have hstep : step b initState q =
      ⟨[(q, defaultRow q)], [defaultRow q], 1, 1⟩ := by
    simp [step, findSeen, initState, hq]
  have hInv1 : LoopInv ⟨[(q, defaultRow q)], [defaultRow q], 1, 1⟩ := by
    refine ⟨?_, by simp, rfl, rfl⟩
    intro p hp
    simp at hp
    rw [hp]
    rfl
  have hrun : runQueries b (q :: rest) =
      rest.foldl (step b) ⟨[(q, defaultRow q)], [defaultRow q], 1, 1⟩ := by
    unfold runQueries
    rw [List.foldl_cons, hstep]
  obtain ⟨hI, hMono, hKeys, hRows⟩ :=
    foldl_step_spec b rest ⟨[(q, defaultRow q)], [defaultRow q], 1, 1⟩ hInv1
  refine ⟨?_, rfl, ?_, hgen⟩
  · rw [hrun, hRows]
    simp
  · rw [hrun, hRows]
    simp

theorem c5_submission_failure_row_witness :
    (behErr 0).submit = SubmitOutcome.err ∧
      ((runQueries behErr ["Q", "R"]).rows.head? = some (defaultRow "Q") ∧
        renderRow (defaultRow "Q") = ["Q", "", "", ""] ∧
        (runQueries behErr ["Q", "R"]).rows.length = ["Q", "R"].length ∧
        (∀ (bp : PageBehavior) (q2 : String), bp.submit = SubmitOutcome.err →
          parse_search_results bp q2 = defaultRow q2)) :=
  ⟨rfl, c5_submission_failure_row behErr "Q" ["R"] rfl⟩

/-- C6: star-score normalization turns the comma decimal separator into a
period — element text `"4,5"` is stored as `"4.5"`, and `"4.5"` is stored
unchanged. -/
theorem c6_star_normalization :
    parse_star_score "4,5" = "4.5" ∧ parse_star_score "4.5" = "4.5" := by
  refine ⟨by decide, by decide⟩

/-- C7: review-count extraction keeps exactly the leading space-delimited
token of the element text — in general the characters before the first
space — so `"1,234 reviews"` is stored as `"1,234"`. -/
theorem c7_reviews_leading_token :
    parse_number_of_reviews "1,234 reviews" = "1,234" ∧
      ∀ t : String,
        (parse_number_of_reviews t).data = t.data.takeWhile (fun c => c ≠ ' ') := by
  refine ⟨by decide, ?_⟩
  intro t
  exact takeUntilSpace_eq_takeWhile t.data

/-- C9: the star-score normalization replaces every comma in the element
text by a period, character by character — in particular `"1,234"` is
stored as `"1.234"`. -/
theorem c9_replaces_all_commas :
    (∀ t : String,
        (parse_star_score t).data = t.data.map (fun c => if c = ',' then '.' else c)) ∧
      parse_star_score "1,234" = "1.234" := by
  refine ⟨?_, by decide⟩
  intro t
  exact replaceCommaChars_eq_map t.data

/-- C8 (counterexample): the integer cell `0` is "non-empty" in the claim's
sense (not null, not the empty string) yet the extractor rejects it — the
test is Python truthiness, and `0` is falsy. -/
theorem c8_nonempty_counterexample :
    specNonEmpty (some (CellValue.vInt 0)) = true ∧
      parse_queries_from_xlsx_file wbZero = [] := by
  refine ⟨by decide, by decide⟩

/-- C8 (amended): a row's first-column value is appended exactly when it is
truthy in the Python sense — not null, not the empty string, and also not a
falsy non-string value such as the number `0` or `False`; truthy non-string
values are accepted as-is. -/
theorem c8_truthy_filter (wb : Workbook) :
    collectAll wb = wb.flatten.filterMap rowValue ∧
      (∀ n : Int, rowValue [some (CellValue.vInt n)] =
        if n = 0 then none else some (CellValue.vInt n)) ∧
      (∀ s : String, rowValue [some (CellValue.vStr s)] =
        if s = "" then none else some (CellValue.vStr s)) := by
  refine ⟨collectAll_flatten wb, ?_, ?_⟩
  · intro n
    by_cases h : n = 0 <;> simp [rowValue, CellValue.truthy, h]
  · intro s
    by_cases h : s = "" <;> simp [rowValue, CellValue.truthy, h]

/-- C10: when the extracted-and-truncated query list is empty and setup
succeeded, the run writes the output file with exactly the header row
`query;star_score;reviews_count;url` and no data rows, performs no browser
submission and no pacing delay, and exits with status 0. -/
theorem c10_empty_queries_run (b : Nat → PageBehavior) (wb : Workbook)
    (h : mainQueries wb = []) :
    mainRun b wb = (0, [headerLine]) ∧
      headerLine = "query;star_score;reviews_count;url" ∧
      (runQueries b ((mainQueries wb).map pyStr)).interactions = 0 ∧
      (runQueries b ((mainQueries wb).map pyStr)).delays = 0 := by
  refine ⟨?_, by decide, ?_, ?_⟩
  · unfold mainRun outputLines
    rw [h]
    rfl
  · rw [h]
    rfl
  · rw [h]
    rfl

theorem c10_empty_queries_run_witness :
    mainQueries wbHeaderOnly = [] ∧
      (mainRun behErr wbHeaderOnly = (0, [headerLine]) ∧
        headerLine = "query;star_score;reviews_count;url" ∧
        (runQueries behErr ((mainQueries wbHeaderOnly).map pyStr)).interactions = 0 ∧
        (runQueries behErr ((mainQueries wbHeaderOnly).map pyStr)).delays = 0) :=
  ⟨by decide, c10_empty_queries_run behErr wbHeaderOnly (by decide)⟩

/-! ## The main loop over raw cell values

The program's `seen_search_results` dict is keyed by the raw cell value, not
by its text: Python `5 == "5"` is `False`, so an integer cell and a string
cell rendering to the same text are distinct keys, while `True == 1` makes a
boolean cell collide with a numeric one.  The value-level loop below models
this faithfully; the value is converted to text only when the row is
rendered. -/

/-- Python `==` on cell values: `None`, strings, and the numeric tower are
compared within their kind, booleans compare equal to their numeric value
(`True == 1`, `False == 0`), and numbers never equal strings. -/
def pyEq (a b : CellValue) : Bool :=
  match a, b with
  | .vNone, .vNone => true
  | .vStr s, .vStr t => decide (s = t)
  | .vInt m, .vInt n => decide (m = n)
  | .vBool x, .vBool y => decide (x = y)
  | .vBool x, .vInt n => decide ((if x then (1 : Int) else 0) = n)
  | .vInt m, .vBool y => decide (m = (if y then (1 : Int) else 0))
  | _, _ => false

theorem pyEq_refl (a : CellValue) : pyEq a a = true := by
  cases a <;> simp [pyEq]

theorem pyEq_symm {a b : CellValue} (h : pyEq a b = true) : pyEq b a = true := by
  cases a <;> cases b <;> simp_all [pyEq]

theorem pyEq_trans {a b c : CellValue} (h1 : pyEq a b = true)
    (h2 : pyEq b c = true) : pyEq a c = true := by
  cases a <;> cases b <;> cases c <;>
    simp only [pyEq, decide_eq_true_eq] at h1 h2 ⊢
  all_goals try exact Bool.noConfusion h1
  all_goals try exact Bool.noConfusion h2
  all_goals try exact h1.trans h2
  all_goals split_ifs at * <;> try simp_all

/-- The record built by `parse_search_results` when the loop hands it a raw
cell value: the `query` key holds the value itself (converted to text only
by the CSV writer); the other fields do not depend on the query. -/
structure SearchResultsV where
  query : CellValue
  url : Option String
  star_score : Option String
  reviews_count : Option String
deriving DecidableEq, Repr

/-- `parse_search_results` on a raw cell value: the scrape logic is that of
`parse_search_results` (the page behavior abstracts the submitted text), and
the record keeps the raw value under `query`. -/
def parse_search_resultsV (b : PageBehavior) (query : CellValue) : SearchResultsV :=
  let r := parse_search_results b (pyStr query)
  ⟨query, r.url, r.star_score, r.reviews_count⟩

/-- The record for a query whose submission failed, value-level. -/
def defaultRowV (q : CellValue) : SearchResultsV := ⟨q, none, none, none⟩

/-- The row dict in field order at write time: the raw query value is
coerced to text here, missing values become `restval` (the empty string). -/
def renderRowV (r : SearchResultsV) : List String :=
  [pyStr r.query, r.star_score.getD "", r.reviews_count.getD "", r.url.getD ""]

/-- One written CSV line of a value-level record. -/
def renderLineV (r : SearchResultsV) : String :=
  String.intercalate ";" ((renderRowV r).map csvQuote)

/-- Value-level loop state: the dict keyed by raw cell value, the rows
written so far, and the interaction and pacing-delay counters. -/
structure LoopStateV where
  seen : List (CellValue × SearchResultsV)
  rows : List SearchResultsV
  interactions : Nat
  delays : Nat
deriving DecidableEq, Repr

/-- Dict lookup by Python `==` on the raw cell value. -/
def findSeenV (q : CellValue) : List (CellValue × SearchResultsV) → Option SearchResultsV
  | [] => none
  | (k, r) :: rest => if pyEq k q then some r else findSeenV q rest

def initStateV : LoopStateV := ⟨[], [], 0, 0⟩

/-- One iteration of `for query in queries` with the dict keyed by the raw
cell value: a hit reuses the cached record with no delay and no submission;
a miss sleeps, scrapes, caches and writes. -/
def stepV (b : Nat → PageBehavior) (st : LoopStateV) (query : CellValue) : LoopStateV :=
  match findSeenV query st.seen with
  | some r => { st with rows := st.rows ++ [r] }
  | none =>
    let r := parse_search_resultsV (b st.interactions) query
    { seen := st.seen ++ [(query, r)]
      rows := st.rows ++ [r]
      interactions := st.interactions + 1
      delays := st.delays + 1 }

/-- The whole query loop of `main` over raw cell values, from an empty
cache. -/
def runQueriesV (b : Nat → PageBehavior) (queries : List CellValue) : LoopStateV :=
  queries.foldl (stepV b) initStateV

/-- Whether some element of `keys` is Python-equal to `q` (the dict
membership test `query in seen_search_results`). -/
def pyMem (q : CellValue) (keys : List CellValue) : Bool :=
  keys.any (fun k => pyEq k q)

/-- First-occurrence deduplication under Python `==`, continuing from an
already-deduplicated prefix `acc`. -/
def pyDedupAcc (acc : List CellValue) (qs : List CellValue) : List CellValue :=
  qs.foldl (fun acc q => if pyMem q acc then acc else acc ++ [q]) acc

/-- The distinct query values of a list, in first-occurrence order, under
Python `==`. -/
def pyDedup (qs : List CellValue) : List CellValue :=
  pyDedupAcc [] qs

theorem findSeenV_append_left {q : CellValue} {l : List (CellValue × SearchResultsV)}
    {r : SearchResultsV} (l2 : List (CellValue × SearchResultsV))
    (h : findSeenV q l = some r) : findSeenV q (l ++ l2) = some r := by
  induction l with
  | nil => simp [findSeenV] at h
  | cons p rest ih =>
    obtain ⟨k, v⟩ := p
    by_cases hk : pyEq k q = true
    · simp [findSeenV, hk] at h ⊢
      exact h
    · simp [findSeenV, hk] at h ⊢
      exact ih h

theorem findSeenV_append_self {q : CellValue} {l : List (CellValue × SearchResultsV)}
    (r : SearchResultsV) (h : findSeenV q l = none) :
    findSeenV q (l ++ [(q, r)]) = some r := by
  induction l with
  | nil => simp [findSeenV, pyEq_refl]
  | cons p rest ih =>
    obtain ⟨k, v⟩ := p
    by_cases hk : pyEq k q = true
    · simp [findSeenV, hk] at h
    · simp [findSeenV, hk] at h ⊢
      exact ih h

theorem findSeenV_isSome_eq_pyMem (q : CellValue)
    (l : List (CellValue × SearchResultsV)) :
    (findSeenV q l).isSome = pyMem q (l.map Prod.fst) := by
  induction l with
  | nil => simp [findSeenV, pyMem]
  | cons p rest ih =>
    obtain ⟨k, v⟩ := p
    by_cases hk : pyEq k q = true
    · simp [findSeenV, hk, pyMem]
    · simp [findSeenV, hk, pyMem] at ih ⊢
      exact ih

/-- Two Python-equal values index the same dict entry. -/
theorem findSeenV_congr {a b : CellValue} (h : pyEq a b = true)
    (l : List (CellValue × SearchResultsV)) :
    findSeenV a l = findSeenV b l := by
  induction l with
  | nil => rfl
  | cons p rest ih =>
    obtain ⟨k, v⟩ := p
    by_cases hk : pyEq k a = true
    · simp [findSeenV, hk, pyEq_trans hk h]
    · have hkb : pyEq k b ≠ true := by
        intro hkb
        exact hk (pyEq_trans hkb (pyEq_symm h))
      simp [findSeenV, hk, hkb]
      exact ih

theorem pyMem_append_one {x y : CellValue} {acc : List CellValue}
    (h : pyMem x acc = true) : pyMem x (acc ++ [y]) = true := by
  simp [pyMem] at h ⊢
  exact Or.inl h

theorem pyMem_pyDedupAcc_mono {x : CellValue} (qs : List CellValue)
    {acc : List CellValue} (h : pyMem x acc = true) :
    pyMem x (pyDedupAcc acc qs) = true := by
  induction qs generalizing acc with
  | nil => exact h
  | cons q rest ih =>
    unfold pyDedupAcc
    rw [List.foldl_cons]
    by_cases hq : pyMem q acc = true
    · simp only [hq, if_true]
      exact ih h
    · simp only [hq, if_false]
      exact ih (pyMem_append_one h)

theorem pyMem_pyDedupAcc_of_mem {x : CellValue} {qs : List CellValue}
    (acc : List CellValue) (h : x ∈ qs) :
    pyMem x (pyDedupAcc acc qs) = true := by
  induction qs generalizing acc with
  | nil => simp at h
  | cons q rest ih =>
    unfold pyDedupAcc
    rw [List.foldl_cons]
    rcases List.mem_cons.mp h with hx | hx
    · subst hx
      by_cases hq : pyMem x acc = true
      · simp only [hq, if_true]
        exact pyMem_pyDedupAcc_mono rest hq
      · simp only [hq, if_false]
        have : pyMem x (acc ++ [x]) = true := by
          simp [pyMem, pyEq_refl]
        exact pyMem_pyDedupAcc_mono rest this
    · by_cases hq : pyMem q acc = true
      · simp only [hq, if_true]
        exact ih acc hx
      · simp only [hq, if_false]
        exact ih (acc ++ [q]) hx

/-- The row the finished value-level loop holds for a query value. -/
def finalRowOfV (fin : LoopStateV) (q : CellValue) : SearchResultsV :=
  (findSeenV q fin.seen).getD (defaultRowV q)

/-- Counter invariant of the value-level loop: the interaction and delay
counters equal the number of dict entries. -/
def LoopInvV (st : LoopStateV) : Prop :=
  st.interactions = st.seen.length ∧ st.delays = st.seen.length

/-- Master lemma for the value-level loop: one appended row per query, each
row being the final dict's record for its value; existing entries are
stable, and the dict keys are exactly the first-occurrence Python-distinct
values processed so far. -/
theorem foldl_stepV_spec (b : Nat → PageBehavior) (qs : List CellValue)
    (st : LoopStateV) (hInv : LoopInvV st) :
    LoopInvV (qs.foldl (stepV b) st) ∧
      (∀ q r, findSeenV q st.seen = some r →
        findSeenV q (qs.foldl (stepV b) st).seen = some r) ∧
      (qs.foldl (stepV b) st).seen.map Prod.fst =
        pyDedupAcc (st.seen.map Prod.fst) qs ∧
      (qs.foldl (stepV b) st).rows =
        st.rows ++ qs.map (finalRowOfV (qs.foldl (stepV b) st)) := by
  induction qs generalizing st with
  | nil =>
    refine ⟨hInv, fun q r h => h, rfl, by simp⟩
  | cons q rest ih =>
    rw [List.foldl_cons]
    have hmem : pyMem q (st.seen.map Prod.fst) = (findSeenV q st.seen).isSome :=
      (findSeenV_isSome_eq_pyMem q st.seen).symm
    cases hfind : findSeenV q st.seen with
    | some r =>
      have hstep : stepV b st q = { st with rows := st.rows ++ [r] } := by
        simp [stepV, hfind]
      rw [hstep]
      obtain ⟨hI, hMono, hKeys, hRows⟩ :=
        ih { st with rows := st.rows ++ [r] } ⟨hInv.1, hInv.2⟩
      refine ⟨hI, fun q0 r0 h0 => hMono q0 r0 h0, ?_, ?_⟩
      · rw [hKeys]
        unfold pyDedupAcc
        rw [List.foldl_cons]
        rw [hfind] at hmem
        simp only [Option.isSome_some] at hmem
        simp only [hmem, if_true]
      · rw [hRows]
        have hfin : findSeenV q
            (rest.foldl (stepV b) { st with rows := st.rows ++ [r] }).seen = some r :=
          hMono q r hfind
        simp only [List.map_cons, finalRowOfV, hfin, Option.getD_some]
        simp [List.append_assoc]
    | none =>
      set r := parse_search_resultsV (b st.interactions) q with hr
      have hstep : stepV b st q =
          ⟨st.seen ++ [(q, r)], st.rows ++ [r], st.interactions + 1,
            st.delays + 1⟩ := by
        simp [stepV, hfind]
      have hInv1 : LoopInvV ⟨st.seen ++ [(q, r)], st.rows ++ [r],
          st.interactions + 1, st.delays + 1⟩ := by
        refine ⟨?_, ?_⟩ <;> simp [hInv.1, hInv.2]
      rw [hstep]
      obtain ⟨hI, hMono, hKeys, hRows⟩ :=
        ih ⟨st.seen ++ [(q, r)], st.rows ++ [r], st.interactions + 1,
          st.delays + 1⟩ hInv1
      refine ⟨hI, ?_, ?_, ?_⟩
      · intro q0 r0 h0
        exact hMono q0 r0 (findSeenV_append_left _ h0)
      · rw [hKeys]
        unfold pyDedupAcc
        rw [List.foldl_cons]
        rw [hfind] at hmem
        simp only [Option.isSome_none] at hmem
        simp only [hmem, if_false]
        simp
      · rw [hRows]
        have hself : findSeenV q (st.seen ++ [(q, r)]) = some r :=
          findSeenV_append_self r hfind
        have hfin : findSeenV q (rest.foldl (stepV b)
            ⟨st.seen ++ [(q, r)], st.rows ++ [r], st.interactions + 1,
              st.delays + 1⟩).seen = some r :=
          hMono q r hself
        simp only [List.map_cons, finalRowOfV, hfin, Option.getD_some]
        simp [List.append_assoc]

theorem runQueriesV_rows (b : Nat → PageBehavior) (qs : List CellValue) :
    (runQueriesV b qs).rows = qs.map (finalRowOfV (runQueriesV b qs)) := by
  have h := (foldl_stepV_spec b qs initStateV ⟨rfl, rfl⟩).2.2.2
  simpa [initStateV, runQueriesV] using h

theorem runQueriesV_keys (b : Nat → PageBehavior) (qs : List CellValue) :
    (runQueriesV b qs).seen.map Prod.fst = pyDedup qs := by
  have h := (foldl_stepV_spec b qs initStateV ⟨rfl, rfl⟩).2.2.1
  simpa [initStateV, runQueriesV, pyDedup] using h

theorem runQueriesV_interactions (b : Nat → PageBehavior) (qs : List CellValue) :
    (runQueriesV b qs).interactions = (pyDedup qs).length := by
  have hI : (runQueriesV b qs).interactions = (runQueriesV b qs).seen.length :=
    (foldl_stepV_spec b qs initStateV ⟨rfl, rfl⟩).1.1
  rw [hI, ← runQueriesV_keys b qs, List.length_map]

theorem runQueriesV_delays (b : Nat → PageBehavior) (qs : List CellValue) :
    (runQueriesV b qs).delays = (pyDedup qs).length := by
  have hI : (runQueriesV b qs).delays = (runQueriesV b qs).seen.length :=
    (foldl_stepV_spec b qs initStateV ⟨rfl, rfl⟩).1.2
  rw [hI, ← runQueriesV_keys b qs, List.length_map]

/-- For a value occurring in the processed list, the final dict has an
entry for it. -/
theorem findSeenV_isSome_of_mem (b : Nat → PageBehavior) {qs : List CellValue}
    {q : CellValue} (h : q ∈ qs) :
    (findSeenV q (runQueriesV b qs).seen).isSome = true := by
  rw [findSeenV_isSome_eq_pyMem, runQueriesV_keys]
  exact pyMem_pyDedupAcc_of_mem [] h

/-- A browser behavior whose submissions succeed with a different URL on
each fresh interaction, and whose review elements are absent. -/
def behUrls : Nat → PageBehavior :=
  fun n => ⟨SubmitOutcome.ok (if n = 0 then "u0" else "u1"),
    ElemOutcome.noSuchElement, ElemOutcome.noSuchElement⟩

/-- C4 (counterexample): the integer cell `5` and the string cell `"5"` have
the same query text, so the text `"5"` appears twice in the input, yet they
are distinct dict keys (`5 == "5"` is false in Python): the run performs two
browser submissions and two pacing delays, and the two written rows can
differ byte-for-byte (here through their URLs), contrary to the claim that a
repeated query text triggers no additional interaction and reuses the
cached row verbatim. -/
theorem c4_text_identity_counterexample :
    pyStr (CellValue.vInt 5) = pyStr (CellValue.vStr "5") ∧
      pyEq (CellValue.vInt 5) (CellValue.vStr "5") = false ∧
      (runQueriesV behUrls [CellValue.vInt 5, CellValue.vStr "5"]).interactions = 2 ∧
      (runQueriesV behUrls [CellValue.vInt 5, CellValue.vStr "5"]).delays = 2 ∧
      (runQueriesV behUrls [CellValue.vInt 5, CellValue.vStr "5"]).rows.map renderLineV =
        ["5;;;u0", "5;;;u1"] := by
  refine ⟨by decide, by decide, by decide, by decide, by decide⟩

/-- C4 (amended): deduplication is by Python `==` on the raw cell value, not
by rendered text: for any two positions holding Python-equal query values,
the written rows are identical records (hence byte-identical lines), and
the number of browser interactions and of pacing delays equals the number
of Python-distinct values in the input — so every later occurrence of an
already-seen value reuses the cached record with no additional submission
and no pacing delay. -/
theorem c4_value_identity (b : Nat → PageBehavior) (qs : List CellValue)
    (i j : Nat) (vi vj : CellValue)
    (hi : qs[i]? = some vi) (hj : qs[j]? = some vj)
    (hpy : pyEq vi vj = true) :
    (runQueriesV b qs).rows[i]? = (runQueriesV b qs).rows[j]? ∧
      ((runQueriesV b qs).rows[i]?).map renderLineV =
        ((runQueriesV b qs).rows[j]?).map renderLineV ∧
      (runQueriesV b qs).interactions = (pyDedup qs).length ∧
      (runQueriesV b qs).delays = (pyDedup qs).length := by
  have hrows := runQueriesV_rows b qs
  have hfeq : finalRowOfV (runQueriesV b qs) vi = finalRowOfV (runQueriesV b qs) vj := by
    unfold finalRowOfV
    rw [findSeenV_congr hpy]
    have hs : (findSeenV vj (runQueriesV b qs).seen).isSome = true :=
      findSeenV_isSome_of_mem b (List.getElem?_mem hj)
    cases ho : findSeenV vj (runQueriesV b qs).seen with
    | none =>
      rw [ho] at hs
      simp at hs
    | some r => simp
  have hij : (runQueriesV b qs).rows[i]? = (runQueriesV b qs).rows[j]? := by
    rw [hrows, List.getElem?_map, List.getElem?_map, hi, hj]
    simp [hfeq]
  exact ⟨hij, by rw [hij], runQueriesV_interactions b qs, runQueriesV_delays b qs⟩

theorem c4_value_identity_witness :
    [CellValue.vBool true, CellValue.vInt 1][0]? = some (CellValue.vBool true) ∧
      [CellValue.vBool true, CellValue.vInt 1][1]? = some (CellValue.vInt 1) ∧
      pyEq (CellValue.vBool true) (CellValue.vInt 1) = true ∧
      ((runQueriesV behErr [CellValue.vBool true, CellValue.vInt 1]).rows[0]? =
          (runQueriesV behErr [CellValue.vBool true, CellValue.vInt 1]).rows[1]? ∧
        ((runQueriesV behErr [CellValue.vBool true, CellValue.vInt 1]).rows[0]?).map renderLineV =
          ((runQueriesV behErr [CellValue.vBool true, CellValue.vInt 1]).rows[1]?).map renderLineV ∧
        (runQueriesV behErr [CellValue.vBool true, CellValue.vInt 1]).interactions =
          (pyDedup [CellValue.vBool true, CellValue.vInt 1]).length ∧
        (runQueriesV behErr [CellValue.vBool true, CellValue.vInt 1]).delays =
          (pyDedup [CellValue.vBool true, CellValue.vInt 1]).length) :=
  ⟨by decide, by decide, by decide,
    c4_value_identity behErr [CellValue.vBool true, CellValue.vInt 1] 0 1
      (CellValue.vBool true) (CellValue.vInt 1) (by decide) (by decide) (by decide)⟩
